import Mathlib

/-!
Shallow embedding of `src/surfactant/output/cyclonedx_writer.py`
(the CycloneDX graph projector of Surfactant).

Python optional string fields are `Option String`; Python truthiness of a
string field (`if software.vendor`, `if software.sha1`) is `truthyStr` /
list non-emptiness.  The external `cyclonedx.model` classes (`Component`,
`Dependency`, `HashType`, `Bom`) are plain data holders here: the
constructor stores exactly the arguments it is given, and the
`dependencies` collections accumulate the entries added to them in order.
Stateful Python (the in-place normalization of `software.description` /
`software.version` in `create_cyclonedx_file`, and the
`container_path_relationships` dict) is explicit state passing.
-/

namespace CdxWriter

/-- Python truthiness of an optional string: `None` and `""` are falsy. -/
def truthyStr : Option String → Bool
  | none => false
  | some s => !s.data.isEmpty

/-- Embedding of `str.upper()` restricted to ASCII, which is all the
relationship labels use; `Char.toUpper` uppercases exactly ASCII a-z. -/
def pyUpper (s : String) : String :=
  ⟨s.data.map Char.toUpper⟩

/-- Split a character list on a separator character (the semantics of
Python's `str.split(sep)` for a one-character separator). -/
def splitChars (sep : Char) : List Char → List (List Char)
  | [] => [[]]
  | c :: cs =>
    if c == sep then
      [] :: splitChars sep cs
    else
      match splitChars sep cs with
      | h :: t => (c :: h) :: t
      | [] => [[c]]

/-- Embedding of `pathlib.PurePath(s).parts` (POSIX flavor): spurious
slashes and single dots are collapsed; a leading `/` (or exactly `//`)
is kept as a root part. -/
def purePathParts (s : String) : List String :=
  let comps := ((splitChars '/' s.data).filter
    (fun l => !l.isEmpty && l != ['.'])).map (fun l => String.mk l)
  match s.data with
  | '/' :: '/' :: '/' :: _ => "/" :: comps
  | '/' :: '/' :: _ => "//" :: comps
  | '/' :: _ => "/" :: comps
  | _ => comps

/-- `"/".join(parts)` over the embedded strings. -/
def joinSlash (l : List String) : String :=
  ⟨List.intercalate ['/'] (l.map String.data)⟩

/-- `System` entity of `surfactant.sbomtypes` (not under `src/`).
Modelled from the spec: "a top-level grouping entity.  Attributes: unique
identifier, official name, short name (fallback), free-text description,
ordered list of vendor names"; the writer reads exactly the fields below. -/
structure System where
  UUID : String
  officialName : Option String
  name : Option String
  vendor : List String
  description : Option String
  deriving Repr, DecidableEq

/-- `Software` entity of `surfactant.sbomtypes` (not under `src/`).
Modelled from the spec: identifier, optional name / version / description,
vendor list, file-name aliases, container-relative paths, optional
SHA-1/SHA-256/MD5 hashes, and loosely-typed metadata records (each a
mapping from category name to field-name-to-value mappings). -/
structure Software where
  UUID : String
  name : Option String
  version : Option String
  description : Option String
  vendor : List String
  fileName : List String
  containerPath : List String
  sha1 : Option String
  sha256 : Option String
  md5 : Option String
  metadata : List (List (String × List (String × String)))
  deriving Repr, DecidableEq

/-- The input SBOM as the writer consumes it: the `systems` and `software`
lists, and the relationship multigraph flattened to its edge list
`(parent, child, relationType)` as returned by `sbom.graph.edges(keys=True)`.
The graph container itself lives in `surfactant.sbomtypes` (not under
`src/`); modelled from the spec: "a directed multigraph whose nodes are
entity identifiers and whose edges carry a relationship-type label". -/
structure SBOM where
  systems : List System
  software : List Software
  edges : List (String × String × String)
  deriving Repr, DecidableEq

/-- `SBOM.get_children(uuid, rel_type)` of `surfactant.sbomtypes` (not
under `src/`).  Modelled from the spec: "lookups for 'children of X under
relation R' must be supported" — the children of `uuid` along edges whose
label is exactly `rel`. -/
def SBOM.get_children (sbom : SBOM) (uuid rel : String) : List String :=
  (sbom.edges.filter (fun e => e.1 == uuid && e.2.2 == rel)).map (fun e => e.2.1)

/-- `cyclonedx.model.component.ComponentType`: the two values the writer uses. -/
inductive ComponentType where
  | container
  | file
  deriving Repr, DecidableEq

/-- `cyclonedx.model.HashAlgorithm`: the three values the writer uses. -/
inductive HashAlgorithm where
  | sha_1
  | sha_256
  | md5
  deriving Repr, DecidableEq

/-- `cyclonedx.model.HashType(alg=…, content=…)`. -/
structure HashType where
  alg : HashAlgorithm
  content : String
  deriving Repr, DecidableEq

/-- `cyclonedx.model.component.Component` restricted to the constructor
arguments the writer passes; the constructor stores them verbatim.
`supplier` holds the `OrganizationalEntity` name. -/
structure Component where
  bom_ref : String
  name : Option String
  version : Option String := none
  supplier : Option String := none
  description : Option String := none
  hashes : Option (List HashType) := none
  copyright : Option String := none
  type : ComponentType
  deriving Repr, DecidableEq

/-- One child entry of a `cyclonedx.model.dependency.Dependency`:
the referenced identifier and the optional scope tag attached by
`add_scope_dependency` (`none` for the unscoped structural add). -/
structure DepEntry where
  ref : String
  scope : Option String
  deriving Repr, DecidableEq

/-- `cyclonedx.model.dependency.Dependency`: a parent reference and the
accumulated child entries, in the order the writer added them. -/
structure Dependency where
  ref : String
  dependencies : List DepEntry
  deriving Repr, DecidableEq

/-- `get_fileinfo_metadata(software, field)`: scan the metadata records for
one holding a `"FileInfo"` category that has `field`, returning its value. -/
def get_fileinfo_metadata (software : Software) (field : String) : Option String :=
  if software.metadata.isEmpty then
    none
  else
    software.metadata.findSome? (fun entry =>
      match (entry.lookup "FileInfo").bind (fun fi => fi.lookup field) with
      | some v => some v
      | none => none)

/-- The supplier resolution shared by every converter:
`if software.vendor: supplier = OrganizationalEntity(name=software.vendor[0])`. -/
def pickSupplier (vendor : List String) : Option String :=
  match vendor with
  | v :: _ => some v
  | [] => none

/-- The hash-list block that `convert_software_to_cyclonedx_container_components`
and `create_cyclonedx_file` both contain verbatim: append a `HashType` for
each truthy hash field, then `if not hashes: hashes = None`. -/
def buildHashes (software : Software) : Option (List HashType) :=
  let hashes := (if truthyStr software.sha1 then
      [HashType.mk HashAlgorithm.sha_1 (software.sha1.getD "")] else [])
    ++ (if truthyStr software.sha256 then
      [HashType.mk HashAlgorithm.sha_256 (software.sha256.getD "")] else [])
    ++ (if truthyStr software.md5 then
      [HashType.mk HashAlgorithm.md5 (software.md5.getD "")] else [])
  if hashes.isEmpty then none else some hashes

/-- `convert_system_to_cyclonedx_component`: name prefers `officialName`,
falling back to `name` when the official name is falsy and `name` truthy;
first vendor as supplier; `bom_ref` is the system identifier. -/
def convert_system_to_cyclonedx_component (system : System) : String × Component :=
  let name := if !truthyStr system.officialName && truthyStr system.name then
      system.name
    else
      system.officialName
  (system.UUID,
    { bom_ref := system.UUID
      name := name
      supplier := pickSupplier system.vendor
      description := system.description
      type := ComponentType.container })

/-- `convert_software_to_cyclonedx_container_components`: one CONTAINER
component per entry of `fileName`, with the file name used as the name only
when the software name is falsy. -/
def convert_software_to_cyclonedx_container_components
    (software : Software) : String × List Component :=
  (software.UUID,
    software.fileName.map (fun fname =>
      let name := if truthyStr software.name then software.name else some fname
      { bom_ref := software.UUID
        name := name
        version := software.version
        supplier := pickSupplier software.vendor
        description := software.description
        hashes := buildHashes software
        type := ComponentType.container }))

/-- The in-place normalization inside `create_cyclonedx_file`:
`if software.description == "": software.description = None` and the same
for `version`.  This mutates the input `Software` object. -/
def normalizeEmpty (software : Software) : Software :=
  let software := if software.description == some "" then
      { software with description := none } else software
  if software.version == some "" then
    { software with version := none } else software

/-- `create_cyclonedx_file(file_path, software)`: builds a FILE component
and, as a side effect, normalizes the software's empty-string description
and version to `None`.  Returns the component together with the
post-mutation state of the software entry. -/
def create_cyclonedx_file (file_path : String) (software : Software) :
    Component × Software :=
  let supplier := pickSupplier software.vendor
  let hashes := buildHashes software
  let copyright_text := match get_fileinfo_metadata software "LegalCopyright" with
    | some cr => if cr.isEmpty then none else some cr
    | none => none
  let software := normalizeEmpty software
  ({ bom_ref := software.UUID
     name := some file_path
     version := software.version
     supplier := supplier
     description := software.description
     hashes := hashes
     copyright := copyright_text
     type := ComponentType.file },
   software)

/-- One iteration of the `containerPath` loop of
`convert_software_to_cyclonedx_file_components`: a path with more than one
part yields a FILE component (first part = parent container UUID, rest
joined with `/`); any other path is skipped. -/
def filePathStep (st : List (Option String × String × Component) × Software)
    (cpathstr : String) : List (Option String × String × Component) × Software :=
  match purePathParts cpathstr with
  | p₀ :: p₁ :: rest =>
    let file_path := joinSlash (p₁ :: rest)
    let (file, sw) := create_cyclonedx_file file_path st.2
    (st.1 ++ [(some p₀, st.2.UUID, file)], sw)
  | _ => st

/-- One iteration of the `fileName` fallback loop of
`convert_software_to_cyclonedx_file_components`: a FILE component named by
the file name, with no recorded parent. -/
def fileNameStep (st : List (Option String × String × Component) × Software)
    (fname : String) : List (Option String × String × Component) × Software :=
  let (file, sw) := create_cyclonedx_file fname st.2
  (st.1 ++ [(none, st.2.UUID, file)], sw)

/-- `convert_software_to_cyclonedx_file_components`: one FILE component per
`containerPath` entry with more than one path part (first part = parent
container UUID, rest joined with `/` = file path); if `containerPath` is
empty, one FILE component per `fileName` entry with no parent.  The
`Software` state is threaded through the `create_cyclonedx_file` calls. -/
def convert_software_to_cyclonedx_file_components (software : Software) :
    List (Option String × String × Component) × Software :=
  let step := software.containerPath.foldl filePathStep ([], software)
  if software.containerPath.isEmpty then
    software.fileName.foldl fileNameStep step
  else
    step

/-- The `container_path_relationships` dict: association list with Python
dict update semantics (`d[k] = v` overwrites an existing binding). -/
def dictSet (d : List (String × String)) (k v : String) : List (String × String) :=
  if d.any (fun kv => kv.1 == k) then
    d.map (fun kv => if kv.1 == k then (k, v) else kv)
  else
    d ++ [(k, v)]

/-- `k in d` / `d[k]` on the association-list dict. -/
def dictGet? (d : List (String × String)) (k : String) : Option String :=
  (d.find? (fun kv => kv.1 == k)).map (·.2)

/-- Processing of one software node inside the `write_sbom` loop: either
the container branch (node has `Contains` children) or the file branch,
returning the components added to the BOM, the
`container_path_relationships` updates `(file.bom_ref.value, parent_uuid)`
recorded for truthy parents, and the node's post-mutation state. -/
def softwareStep (sbom : SBOM) (software : Software) :
    List Component × List (String × String) × Software :=
  if !(sbom.get_children software.UUID "Contains").isEmpty then
    ((convert_software_to_cyclonedx_container_components software).2, [], software)
  else
    let (files, sw) := convert_software_to_cyclonedx_file_components software
    (files.map (fun t => t.2.2),
     files.filterMap (fun t =>
       match t.1 with
       | some parent_uuid => some (t.2.2.bom_ref, parent_uuid)
       | none => none),
     sw)

/-- The `cdx_rels` bookkeeping of the edge loop: ensure a `Dependency`
record keyed by `parent_uuid` exists, then add `entry` to its
`dependencies` collection. -/
def addDepEntry (rels : List Dependency) (parent_uuid : String)
    (entry : DepEntry) : List Dependency :=
  if rels.any (fun d => d.ref == parent_uuid) then
    rels.map (fun d =>
      if d.ref == parent_uuid then
        { d with dependencies := d.dependencies ++ [entry] }
      else d)
  else
    rels ++ [{ ref := parent_uuid, dependencies := [entry] }]

/-- One iteration of the edge loop of `write_sbom`: uppercase the label,
skip a `CONTAINS` edge whose child is in `container_path_relationships`
with a different recorded parent, and otherwise add one entry (unscoped for
`CONTAINS`, `"runtime"`-scoped for `USES`/`DEPENDS_ON`/`REQUIRES`,
`"unknown"`-scoped otherwise) to the parent's `Dependency` record,
creating the record if absent. -/
def processEdge (cpr : List (String × String)) (rels : List Dependency)
    (edge : String × String × String) : List Dependency :=
  let parent_uuid := edge.1
  let child_uuid := edge.2.1
  let rel_type := pyUpper edge.2.2
  if rel_type == "CONTAINS"
      && (dictGet? cpr child_uuid).isSome
      && some parent_uuid != dictGet? cpr child_uuid then
    rels
  else
    let entry : DepEntry :=
      if rel_type == "CONTAINS" then
        { ref := child_uuid, scope := none }
      else if rel_type == "USES" || rel_type == "DEPENDS_ON"
          || rel_type == "REQUIRES" then
        { ref := child_uuid, scope := some "runtime" }
      else
        { ref := child_uuid, scope := some "unknown" }
    addDepEntry rels parent_uuid entry

/-- The assembled output document: the `components` and `dependencies`
sections in the order the writer added them (the serialized metadata and
format selection carry no SBOM data and are not modelled). -/
structure Bom where
  components : List Component
  dependencies : List Dependency
  deriving Repr, DecidableEq

/-- Record a batch of `(key, value)` updates in the dict, in order. -/
def dictInsertAll (d : List (String × String)) (updates : List (String × String)) :
    List (String × String) :=
  updates.foldl (fun d kv => dictSet d kv.1 kv.2) d

/-- One iteration of the software loop of `write_sbom`. -/
def softwareLoopStep (sbom : SBOM)
    (st : List Component × List (String × String) × List Software)
    (software : Software) :
    List Component × List (String × String) × List Software :=
  let (comps, updates, sw) := softwareStep sbom software
  (st.1 ++ comps, dictInsertAll st.2.1 updates, st.2.2 ++ [sw])

/-- The full software loop of `write_sbom`: accumulated components,
accumulated `container_path_relationships`, and the post-mutation
software list. -/
def softwareLoop (sbom : SBOM) :
    List Component × List (String × String) × List Software :=
  sbom.software.foldl (softwareLoopStep sbom) ([], [], [])

/-- `write_sbom(sbom, outfile)`: the document written to the sink, paired
with the post-call state of the input SBOM (the writer mutates `Software`
entries through `create_cyclonedx_file`). -/
def write_sbom (sbom : SBOM) : Bom × SBOM :=
  let sysComps := sbom.systems.map
    (fun s => (convert_system_to_cyclonedx_component s).2)
  let (swComps, cpr, software) := softwareLoop sbom
  let deps := sbom.edges.foldl (processEdge cpr) []
  ({ components := sysComps ++ swComps, dependencies := deps },
   { sbom with software := software })

/-! ### Derived views of the definitions above, used to state theorems -/

/-- The `(parent, uuid, component)` triple produced for one container path
of a software entry, expressed over the entry's original state: multi-part
paths yield a triple, others none. -/
def pathTriple (sw : Software) (cpathstr : String) :
    Option (Option String × String × Component) :=
  match purePathParts cpathstr with
  | p₀ :: p₁ :: rest =>
    some (some p₀, sw.UUID, (create_cyclonedx_file (joinSlash (p₁ :: rest)) sw).1)
  | _ => none

/-- The triple produced for one file name in the fallback loop. -/
def fnameTriple (sw : Software) (fname : String) :
    Option String × String × Component :=
  (none, sw.UUID, (create_cyclonedx_file fname sw).1)

/-- The parents recorded out of a software entry's container paths: the
first part of every path that has more than one part, in order. -/
def pathParents (sw : Software) : List String :=
  sw.containerPath.filterMap (fun cpathstr =>
    match purePathParts cpathstr with
    | p₀ :: _ :: _ => some p₀
    | _ => none)

/-- Total number of child entries across all dependency records; grows
with every `addDepEntry`. -/
def totalEntries (rels : List Dependency) : Nat :=
  (rels.map (fun d => d.dependencies.length)).sum

/-! ### Concrete example inputs used by counterexamples and witnesses -/

/-- Input with a single edge labeled `DependsOn`, the spelling the claim
uses for the runtime-dependency relation. -/
def c1_sbom : SBOM :=
  { systems := []
    software := []
    edges := [("p", "c", "DependsOn")] }

/-- A software entry with an empty-string description, one container path
and no `Contains` children: its projection goes through
`create_cyclonedx_file`. -/
def c2_software : Software :=
  { UUID := "F1"
    name := some "foo"
    version := some "1.0"
    description := some ""
    vendor := []
    fileName := ["foo.so"]
    containerPath := ["P/foo.so"]
    sha1 := none
    sha256 := none
    md5 := none
    metadata := [] }

/-- Input whose only software entry is `c2_software`. -/
def c2_sbom : SBOM :=
  { systems := []
    software := [c2_software]
    edges := [] }

/-- The scenario of the C3 claim: a software entry whose single container
path names `parentA`, plus an explicit `Contains` edge from `parentA`. -/
def c3_software : Software :=
  { UUID := "F1"
    name := none
    version := none
    description := none
    vendor := []
    fileName := ["file.txt"]
    containerPath := ["parentA/sub/file.txt"]
    sha1 := none
    sha256 := none
    md5 := none
    metadata := [] }

/-- Input for the C3 scenario. -/
def c3_sbom : SBOM :=
  { systems := []
    software := [c3_software]
    edges := [("parentA", "F1", "Contains")] }

/-- A software entry that is a `Contains` parent in `c4_sbom`. -/
def c4_parent : Software :=
  { UUID := "A"
    name := some "pkg"
    version := none
    description := none
    vendor := []
    fileName := ["pkg.zip"]
    containerPath := []
    sha1 := none
    sha256 := none
    md5 := none
    metadata := [] }

/-- A software entry with no `Contains` children in `c4_sbom`. -/
def c4_leaf : Software :=
  { UUID := "B"
    name := none
    version := none
    description := none
    vendor := []
    fileName := ["b.txt"]
    containerPath := ["A/b.txt"]
    sha1 := none
    sha256 := none
    md5 := none
    metadata := [] }

/-- Input with one `Contains` parent and one leaf software entry. -/
def c4_sbom : SBOM :=
  { systems := []
    software := [c4_parent, c4_leaf]
    edges := [("A", "B", "Contains")] }

/-- A `Contains`-parent software entry with empty-string version and
description. -/
def c5_software : Software :=
  { UUID := "C"
    name := some "n"
    version := some ""
    description := some ""
    vendor := []
    fileName := ["c.zip"]
    containerPath := []
    sha1 := none
    sha256 := none
    md5 := none
    metadata := [] }

/-- Input where `c5_software` is a `Contains` parent and is therefore
projected as a container component. -/
def c5_sbom : SBOM :=
  { systems := []
    software := [c5_software]
    edges := [("C", "x", "Contains")] }

/-- A leaf software entry whose only container path has a single part. -/
def c6_software : Software :=
  { UUID := "L"
    name := none
    version := none
    description := none
    vendor := []
    fileName := ["alias.txt"]
    containerPath := ["lonefile"]
    sha1 := none
    sha256 := none
    md5 := none
    metadata := [] }

/-- Input whose only software entry is `c6_software` (no edges, so it is
not a `Contains` parent). -/
def c6_sbom : SBOM :=
  { systems := []
    software := [c6_software]
    edges := [] }

/-- A software entry with no hash values set. -/
def c7_software : Software :=
  { UUID := "H"
    name := some "h"
    version := none
    description := none
    vendor := []
    fileName := ["h.bin"]
    containerPath := []
    sha1 := none
    sha256 := none
    md5 := none
    metadata := [] }

/-- A software entry with exactly one hash value (SHA-256) set. -/
def c7_software_hashed : Software :=
  { c7_software with UUID := "H2", sha256 := some "abc123" }

/-- A system entity for the C8 witness. -/
def c8_system : System :=
  { UUID := "S1"
    officialName := some "Widget OS"
    name := none
    vendor := ["Acme"]
    description := none }

/-- A leaf software entry contained in `S1` for the C8 witness. -/
def c8_software : Software :=
  { UUID := "F1"
    name := none
    version := none
    description := none
    vendor := []
    fileName := ["libfoo.so"]
    containerPath := ["S1/libfoo.so"]
    sha1 := none
    sha256 := some "abc123"
    md5 := none
    metadata := [] }

/-- The spec's example scenario: one system containing one software. -/
def c8_sbom : SBOM :=
  { systems := [c8_system]
    software := [c8_software]
    edges := [("S1", "F1", "Contains")] }

/-- A leaf software entry whose container paths are all single-part. -/
def c9_software : Software :=
  { UUID := "N"
    name := some "n"
    version := none
    description := none
    vendor := []
    fileName := ["x.txt"]
    containerPath := ["lone", "another"]
    sha1 := none
    sha256 := none
    md5 := none
    metadata := [] }

/-- Input whose only software entry is `c9_software`. -/
def c9_sbom : SBOM :=
  { systems := []
    software := [c9_software]
    edges := [] }

/-- A leaf software entry with two multi-part container paths naming the
different parents `P1` and `P2`. -/
def c10_software : Software :=
  { UUID := "M"
    name := none
    version := none
    description := none
    vendor := []
    fileName := []
    containerPath := ["P1/a", "P2/b"]
    sha1 := none
    sha256 := none
    md5 := none
    metadata := [] }

/-- Input with `Contains` edges to `M` from both path-derived parents. -/
def c10_sbom : SBOM :=
  { systems := []
    software := [c10_software]
    edges := [("P1", "M", "Contains"), ("P2", "M", "Contains")] }

/-! ### Helper lemmas -/

/-- Invariants are preserved along `List.foldl`. -/
theorem foldl_invariant {α σ : Type _} {P : σ → Prop} (f : σ → α → σ) :
    ∀ (l : List α) (init : σ), P init → (∀ s a, a ∈ l → P s → P (f s a)) →
    P (l.foldl f init)
  | [], _, h0, _ => h0
  | a :: l, init, h0, hstep =>
    foldl_invariant f l (f init a) (hstep init a (List.mem_cons_self a l) h0)
      (fun s b hb hs => hstep s b (List.mem_cons_of_mem a hb) hs)

/-- The skip condition of `processEdge`, rephrased over `Prop`: the label
uppercases to `CONTAINS` and the child is recorded with a different parent. -/
theorem processEdge_skip_iff (cpr : List (String × String))
    (p c rel : String) :
    (pyUpper rel == "CONTAINS"
        && (dictGet? cpr c).isSome
        && (some p != dictGet? cpr c)) = true ↔
    pyUpper rel = "CONTAINS" ∧ ∃ q, dictGet? cpr c = some q ∧ q ≠ p := by
  cases hq : dictGet? cpr c with
  | none => simp
  | some q =>
    simp only [Option.isSome_some, Bool.and_true, Bool.and_eq_true, beq_iff_eq,
      bne_iff_ne, ne_eq, Option.some.injEq]
    constructor
    · rintro ⟨h1, h2⟩
      exact ⟨h1, q, rfl, fun he => h2 he.symm⟩
    · rintro ⟨h1, q', hqq, hne⟩
      exact ⟨h1, fun he => hne (hqq ▸ he.symm)⟩

/-- Normal form of the in-place normalization: only the `description` and
`version` fields change, each mapped from `some ""` to `none`. -/
theorem normalizeEmpty_eq (sw : Software) :
    normalizeEmpty sw =
      { sw with
        description := if sw.description == some "" then none else sw.description
        version := if sw.version == some "" then none else sw.version } := by
  by_cases hd : sw.description = some "" <;> by_cases hv : sw.version = some "" <;>
    simp [normalizeEmpty, hd, hv]

/-- Normalizing twice is the same as normalizing once. -/
theorem normalizeEmpty_idem (sw : Software) :
    normalizeEmpty (normalizeEmpty sw) = normalizeEmpty sw := by
  by_cases hd : sw.description = some "" <;> by_cases hv : sw.version = some "" <;>
    simp [normalizeEmpty, hd, hv]

/-- The software state returned by `create_cyclonedx_file` is exactly the
normalized input. -/
theorem create_file_snd (f : String) (sw : Software) :
    (create_cyclonedx_file f sw).2 = normalizeEmpty sw := rfl

/-- The component built by `create_cyclonedx_file` is insensitive to prior
normalization of its software argument. -/
theorem create_file_fst_normalize (f : String) (sw : Software) :
    (create_cyclonedx_file f (normalizeEmpty sw)).1 =
      (create_cyclonedx_file f sw).1 := by
  by_cases hd : sw.description = some "" <;> by_cases hv : sw.version = some "" <;>
    simp [create_cyclonedx_file, normalizeEmpty, truthyStr, buildHashes,
      get_fileinfo_metadata, pickSupplier, hd, hv]

/-- Normalization does not change the UUID. -/
theorem normalizeEmpty_UUID (sw : Software) :
    (normalizeEmpty sw).UUID = sw.UUID := by
  rw [normalizeEmpty_eq]

/-- One `containerPath` iteration, over states reachable from `sw`:
it appends exactly the `pathTriple` of the path, and keeps the state
reachable. -/
theorem filePathStep_eq (sw : Software)
    (st : List (Option String × String × Component) × Software) (cp : String)
    (h : st.2 = sw ∨ st.2 = normalizeEmpty sw) :
    (filePathStep st cp).1 = st.1 ++ (pathTriple sw cp).toList ∧
    ((filePathStep st cp).2 = sw ∨ (filePathStep st cp).2 = normalizeEmpty sw) := by
  have hU : st.2.UUID = sw.UUID := by
    rcases h with h | h
    · rw [h]
    · rw [h, normalizeEmpty_UUID]
  cases hpp : purePathParts cp with
  | nil => simp [filePathStep, pathTriple, hpp, h]
  | cons p₀ tl =>
    cases tl with
    | nil => simp [filePathStep, pathTriple, hpp, h]
    | cons p₁ rest =>
      have hcomp : (create_cyclonedx_file (joinSlash (p₁ :: rest)) st.2).1 =
          (create_cyclonedx_file (joinSlash (p₁ :: rest)) sw).1 := by
        rcases h with h | h
        · rw [h]
        · rw [h, create_file_fst_normalize]
      have hsnd : (create_cyclonedx_file (joinSlash (p₁ :: rest)) st.2).2 =
          normalizeEmpty sw := by
        rcases h with h | h
        · rw [h, create_file_snd]
        · rw [h, create_file_snd, normalizeEmpty_idem]
      refine ⟨?_, Or.inr ?_⟩
      · simp [filePathStep, pathTriple, hpp, hcomp, hU]
      · simp [filePathStep, hpp, hsnd]

/-- The `containerPath` fold produces the `pathTriple`s of the paths, in
order, and a state reachable from `sw`. -/
theorem filePath_foldl (sw : Software) (l : List String) :
    ∀ (acc : List (Option String × String × Component)) (s : Software),
      s = sw ∨ s = normalizeEmpty sw →
      (l.foldl filePathStep (acc, s)).1 = acc ++ l.filterMap (pathTriple sw) ∧
      ((l.foldl filePathStep (acc, s)).2 = sw ∨
        (l.foldl filePathStep (acc, s)).2 = normalizeEmpty sw) := by
  induction l with
  | nil => intro acc s h; simpa using h
  | cons cp l ih =>
    intro acc s h
    have hstep := filePathStep_eq sw (acc, s) cp h
    rw [List.foldl_cons]
    have h2 := ih (filePathStep (acc, s) cp).1 (filePathStep (acc, s) cp).2 hstep.2
    refine ⟨?_, h2.2⟩
    rw [h2.1, hstep.1]
    cases hpt : pathTriple sw cp <;> simp [hpt]

/-- One `fileName` fallback iteration, over states reachable from `sw`. -/
theorem fileNameStep_eq (sw : Software)
    (st : List (Option String × String × Component) × Software) (fname : String)
    (h : st.2 = sw ∨ st.2 = normalizeEmpty sw) :
    (fileNameStep st fname).1 = st.1 ++ [fnameTriple sw fname] ∧
    ((fileNameStep st fname).2 = sw ∨ (fileNameStep st fname).2 = normalizeEmpty sw) := by
  have hU : st.2.UUID = sw.UUID := by
    rcases h with h | h
    · rw [h]
    · rw [h, normalizeEmpty_UUID]
  have hcomp : (create_cyclonedx_file fname st.2).1 =
      (create_cyclonedx_file fname sw).1 := by
    rcases h with h | h
    · rw [h]
    · rw [h, create_file_fst_normalize]
  have hsnd : (create_cyclonedx_file fname st.2).2 = normalizeEmpty sw := by
    rcases h with h | h
    · rw [h, create_file_snd]
    · rw [h, create_file_snd, normalizeEmpty_idem]
  refine ⟨?_, Or.inr ?_⟩
  · simp [fileNameStep, fnameTriple, hcomp, hU]
  · simp [fileNameStep, hsnd]

/-- The `fileName` fallback fold produces the `fnameTriple`s of the names,
in order, and a state reachable from `sw`. -/
theorem fileName_foldl (sw : Software) (l : List String) :
    ∀ (acc : List (Option String × String × Component)) (s : Software),
      s = sw ∨ s = normalizeEmpty sw →
      (l.foldl fileNameStep (acc, s)).1 = acc ++ l.map (fnameTriple sw) ∧
      ((l.foldl fileNameStep (acc, s)).2 = sw ∨
        (l.foldl fileNameStep (acc, s)).2 = normalizeEmpty sw) := by
  induction l with
  | nil => intro acc s h; simpa using h
  | cons fname l ih =>
    intro acc s h
    have hstep := fileNameStep_eq sw (acc, s) fname h
    rw [List.foldl_cons]
    have h2 := ih (fileNameStep (acc, s) fname).1 (fileNameStep (acc, s) fname).2 hstep.2
    refine ⟨?_, h2.2⟩
    rw [h2.1, hstep.1]
    simp

/-- The triples returned by `convert_software_to_cyclonedx_file_components`,
expressed over the entry's original state, and the post-state disjunction. -/
theorem convert_files_eq (sw : Software) :
    (convert_software_to_cyclonedx_file_components sw).1 =
      (if sw.containerPath.isEmpty then sw.fileName.map (fnameTriple sw)
       else sw.containerPath.filterMap (pathTriple sw)) ∧
    ((convert_software_to_cyclonedx_file_components sw).2 = sw ∨
      (convert_software_to_cyclonedx_file_components sw).2 = normalizeEmpty sw) := by
  unfold convert_software_to_cyclonedx_file_components
  by_cases hcp : sw.containerPath.isEmpty
  · have hnil : sw.containerPath = [] := by simpa using hcp
    rw [hnil]
    simp only [List.foldl_nil, hcp, if_true]
    have h2 := fileName_foldl sw sw.fileName [] sw (Or.inl rfl)
    simpa using h2
  · have h1 := filePath_foldl sw sw.containerPath [] sw (Or.inl rfl)
    simp only [hcp, if_false, Bool.false_eq_true]
    simpa using h1

/-- Unrolling the software loop: per-node component batches concatenated,
per-node dict updates applied in order, per-node post-states collected. -/
theorem softwareLoop_foldl (sbom : SBOM) (l : List Software) :
    ∀ (init : List Component × List (String × String) × List Software),
      l.foldl (softwareLoopStep sbom) init =
        (init.1 ++ l.flatMap (fun sw => (softwareStep sbom sw).1),
         dictInsertAll init.2.1 (l.flatMap (fun sw => (softwareStep sbom sw).2.1)),
         init.2.2 ++ l.map (fun sw => (softwareStep sbom sw).2.2)) := by
  induction l with
  | nil => intro init; simp [dictInsertAll]
  | cons sw l ih =>
    intro init
    rw [List.foldl_cons, ih]
    simp [softwareLoopStep, dictInsertAll, List.foldl_append]

/-- `write_sbom`, unrolled to its three sections and the post-state. -/
theorem write_sbom_eq (sbom : SBOM) :
    write_sbom sbom =
      ({ components :=
           sbom.systems.map (fun s => (convert_system_to_cyclonedx_component s).2)
             ++ sbom.software.flatMap (fun sw => (softwareStep sbom sw).1)
         dependencies := sbom.edges.foldl
           (processEdge (dictInsertAll []
             (sbom.software.flatMap (fun sw => (softwareStep sbom sw).2.1)))) [] },
       { sbom with
         software := sbom.software.map (fun sw => (softwareStep sbom sw).2.2) }) := by
  unfold write_sbom softwareLoop
  rw [softwareLoop_foldl]
  rfl

/-- The post-state of one software node is the node itself or its
normalization. -/
theorem softwareStep_state (sbom : SBOM) (sw : Software) :
    (softwareStep sbom sw).2.2 = sw ∨ (softwareStep sbom sw).2.2 = normalizeEmpty sw := by
  by_cases h : ((sbom.get_children sw.UUID "Contains").isEmpty : Bool) = true
  · simpa [softwareStep, h] using (convert_files_eq sw).2
  · simp [softwareStep, h]

/-! ### C1: dependency scope mapping -/

/-- C1, counterexample: an edge labeled `DependsOn` does NOT yield a
`"runtime"`-scoped dependency — `"DependsOn".upper() = "DEPENDSON"` misses
the writer's `"DEPENDS_ON"` comparison, so the edge falls through to the
`"unknown"` scope. -/
theorem c1_counterexample :
    (write_sbom c1_sbom).1.dependencies =
      [{ ref := "p", dependencies := [{ ref := "c", scope := some "unknown" }] }] ∧
    ({ ref := "c", scope := some "unknown" } : DepEntry) ≠
      { ref := "c", scope := some "runtime" } := by
  constructor
  · rfl
  · decide

/-- C1 (amended): with the relation label uppercased, `USES`, `DEPENDS_ON`
(i.e. `Depends_On` in any case — not `DependsOn`, which uppercases to
`DEPENDSON`) and `REQUIRES` yield a `"runtime"`-scoped dependency from
parent to child; `CONTAINS` yields either nothing (dedup skip) or an
unscoped structural dependency, never a runtime one; any other label
yields an `"unknown"`-scoped dependency.  In particular `Requires` in any
case always yields runtime and `Contains` never does. -/
theorem c1_scope_mapping (cpr : List (String × String)) (rels : List Dependency)
    (p c rel : String) :
    (pyUpper rel = "USES" ∨ pyUpper rel = "DEPENDS_ON" ∨ pyUpper rel = "REQUIRES" →
      processEdge cpr rels (p, c, rel) =
        addDepEntry rels p { ref := c, scope := some "runtime" }) ∧
    (pyUpper rel = "CONTAINS" →
      processEdge cpr rels (p, c, rel) = rels ∨
      processEdge cpr rels (p, c, rel) =
        addDepEntry rels p { ref := c, scope := none }) ∧
    (pyUpper rel ≠ "CONTAINS" → pyUpper rel ≠ "USES" → pyUpper rel ≠ "DEPENDS_ON" →
      pyUpper rel ≠ "REQUIRES" →
      processEdge cpr rels (p, c, rel) =
        addDepEntry rels p { ref := c, scope := some "unknown" }) := by
  refine ⟨?_, ?_, ?_⟩
  · intro h
    have hc : (pyUpper rel == "CONTAINS") = false := by
      rcases h with h | h | h <;> rw [h] <;> decide
    have hu : (pyUpper rel == "USES" || (pyUpper rel == "DEPENDS_ON"
        || pyUpper rel == "REQUIRES")) = true := by
      rcases h with h | h | h <;> rw [h] <;> decide
    simp [processEdge, hc, hu]
    rcases h with h | h | h <;> simp [h]
  · intro h
    by_cases hskip : (pyUpper rel == "CONTAINS"
        && (dictGet? cpr c).isSome
        && (some p != dictGet? cpr c)) = true
    · left
      simp only [processEdge, hskip, if_true]
    · right
      simp only [processEdge, hskip, if_false, Bool.false_eq_true]
      have hc : (pyUpper rel == "CONTAINS") = true := by rw [h]; decide
      simp [hc, hskip]
  · intro h1 h2 h3 h4
    have hc : (pyUpper rel == "CONTAINS") = false := by
      simp [h1]
    have hu : (pyUpper rel == "USES" || (pyUpper rel == "DEPENDS_ON"
        || pyUpper rel == "REQUIRES")) = false := by
      simp [h2, h3, h4]
    simp [processEdge, hc, hu, h1, h2, h3, h4]

/-- Witness for the amended C1 at concrete labels: `rEqUiReS` (mixed case)
maps to a runtime-scoped entry, discharged by applying `c1_scope_mapping`. -/
theorem c1_scope_mapping_witness :
    processEdge [] [] ("p", "c", "rEqUiReS") =
      addDepEntry [] "p" { ref := "c", scope := some "runtime" } :=
  (c1_scope_mapping [] [] "p" "c" "rEqUiReS").1 (Or.inr (Or.inr (by decide)))

/-- Updating existing records never loses child entries. -/
theorem totalEntries_update_ge (rels : List Dependency) (p : String) (e : DepEntry) :
    totalEntries (rels.map (fun d =>
      if d.ref == p then { d with dependencies := d.dependencies ++ [e] } else d)) ≥
    totalEntries rels := by
  induction rels with
  | nil => simp [totalEntries]
  | cons d rels ih =>
    by_cases hd : d.ref = p <;>
      simp [totalEntries, hd, beq_iff_eq] at ih ⊢ <;> omega

/-- Appending a child entry to the records of `p` strictly grows the total
entry count when some record for `p` exists. -/
theorem totalEntries_update_gt (rels : List Dependency) (p : String) (e : DepEntry)
    (h : rels.any (fun d => d.ref == p) = true) :
    totalEntries (rels.map (fun d =>
      if d.ref == p then { d with dependencies := d.dependencies ++ [e] } else d)) >
    totalEntries rels := by
  induction rels with
  | nil => simp at h
  | cons d rels ih =>
    simp only [List.any_cons, Bool.or_eq_true, beq_iff_eq] at h
    by_cases hd : d.ref = p
    · have := totalEntries_update_ge rels p e
      simp [totalEntries, hd, beq_iff_eq] at this ⊢
      omega
    · rcases h with h | h
      · exact absurd h hd
      · have := ih (by simpa [beq_iff_eq] using h)
        simp [totalEntries, hd, beq_iff_eq] at this ⊢
        omega

/-- `addDepEntry` never returns its input unchanged: a dependency entry is
always added somewhere. -/
theorem addDepEntry_ne (rels : List Dependency) (p : String) (e : DepEntry) :
    addDepEntry rels p e ≠ rels := by
  unfold addDepEntry
  by_cases h : rels.any (fun d => d.ref == p) = true
  · simp only [h, if_true]
    intro heq
    have hgt := totalEntries_update_gt rels p e h
    rw [heq] at hgt
    omega
  · simp only [h, Bool.false_eq_true, if_false]
    intro heq
    have := congrArg List.length heq
    simp at this

/-! ### C2: no mutation of the inputs -/

/-- C2, counterexample: `write_sbom` does mutate a `Software` input —
projecting `c2_software` as a file component rewrites its empty-string
`description` to `None` in place (`create_cyclonedx_file`, the
`software.description = None` statement). -/
theorem c2_counterexample :
    c2_sbom.software.map Software.description = [some ""] ∧
    (write_sbom c2_sbom).2.software.map Software.description = [none] ∧
    (write_sbom c2_sbom).2 ≠ c2_sbom := by
  refine ⟨rfl, rfl, ?_⟩
  decide

/-- C2 (amended): `write_sbom` leaves the graph and all `System` entities
unchanged, and changes each `Software` entity at most by the empty-string
normalization (description and version `""` replaced by absent) applied
when the entity is projected through file components; no other field of
any input is written. -/
theorem c2_frame (sbom : SBOM) :
    (write_sbom sbom).2.systems = sbom.systems ∧
    (write_sbom sbom).2.edges = sbom.edges ∧
    List.Forall₂ (fun sw sw' => sw' = sw ∨ sw' = normalizeEmpty sw)
      sbom.software (write_sbom sbom).2.software := by
  rw [write_sbom_eq]
  refine ⟨rfl, rfl, ?_⟩
  simp only [List.forall₂_map_right_iff]
  rw [List.forall₂_same]
  intro sw _
  exact softwareStep_state sbom sw

/-- Destructor for a produced `pathTriple`: it comes from a multi-part
path and carries the software's UUID and a `create_cyclonedx_file`
component. -/
theorem pathTriple_some (sw : Software) (cp : String)
    (t : Option String × String × Component) (h : pathTriple sw cp = some t) :
    ∃ p₀ p₁ rest, purePathParts cp = p₀ :: p₁ :: rest ∧
      t = (some p₀, sw.UUID, (create_cyclonedx_file (joinSlash (p₁ :: rest)) sw).1) := by
  unfold pathTriple at h
  rcases hpp : purePathParts cp with _ | ⟨p₀, _ | ⟨p₁, rest⟩⟩ <;> rw [hpp] at h
  · cases h
  · cases h
  · exact ⟨p₀, p₁, rest, rfl, (Option.some.inj h).symm⟩

/-- The fields of a component built by `create_cyclonedx_file`. -/
theorem create_file_fields (f : String) (sw : Software) :
    (create_cyclonedx_file f sw).1.type = ComponentType.file ∧
    (create_cyclonedx_file f sw).1.bom_ref = sw.UUID ∧
    (create_cyclonedx_file f sw).1.name = some f ∧
    (create_cyclonedx_file f sw).1.hashes = buildHashes sw ∧
    (create_cyclonedx_file f sw).1.version ≠ some "" ∧
    (create_cyclonedx_file f sw).1.description ≠ some "" := by
  by_cases hd : sw.description = some "" <;> by_cases hv : sw.version = some "" <;>
    simp [create_cyclonedx_file, normalizeEmpty, hd, hv]

/-- The fields of a container component built from a software entry. -/
theorem container_comp_fields (sw : Software) (comp : Component)
    (h : comp ∈ (convert_software_to_cyclonedx_container_components sw).2) :
    comp.type = ComponentType.container ∧ comp.bom_ref = sw.UUID ∧
    comp.hashes = buildHashes sw ∧ comp.version = sw.version ∧
    comp.description = sw.description := by
  simp only [convert_software_to_cyclonedx_container_components, List.mem_map] at h
  obtain ⟨fname, _, rfl⟩ := h
  exact ⟨rfl, rfl, rfl, rfl, rfl⟩

/-- Every component emitted by the file branch of the software loop is a
`create_cyclonedx_file` component of the node. -/
theorem softwareStep_file_mem (sbom : SBOM) (sw : Software) (comp : Component)
    (hemp : (sbom.get_children sw.UUID "Contains").isEmpty = true)
    (h : comp ∈ (softwareStep sbom sw).1) :
    ∃ f, comp = (create_cyclonedx_file f sw).1 := by
  simp only [softwareStep, hemp, Bool.not_true, Bool.false_eq_true, if_false] at h
  rw [(convert_files_eq sw).1] at h
  by_cases hcp : sw.containerPath.isEmpty = true
  · simp only [hcp, if_true, List.map_map, List.mem_map] at h
    obtain ⟨fname, _, rfl⟩ := h
    exact ⟨fname, rfl⟩
  · simp only [hcp, Bool.false_eq_true, if_false, List.mem_map] at h
    obtain ⟨t, ht, rfl⟩ := h
    obtain ⟨cp, _, hpt⟩ := List.mem_filterMap.mp ht
    obtain ⟨p₀, p₁, rest, _, rfl⟩ := pathTriple_some sw cp t hpt
    exact ⟨joinSlash (p₁ :: rest), rfl⟩

/-- Every component emitted by the container branch of the software loop
comes from `convert_software_to_cyclonedx_container_components`. -/
theorem softwareStep_container_mem (sbom : SBOM) (sw : Software) (comp : Component)
    (hne : ¬ (sbom.get_children sw.UUID "Contains").isEmpty = true)
    (h : comp ∈ (softwareStep sbom sw).1) :
    comp ∈ (convert_software_to_cyclonedx_container_components sw).2 := by
  have hb : (sbom.get_children sw.UUID "Contains").isEmpty = false := by
    simpa using hne
  simpa only [softwareStep, hb, Bool.not_false, if_true] using h

/-- `processEdge` either leaves the records unchanged or adds one entry
whose parent is the edge's source and whose ref is the edge's target. -/
theorem processEdge_cases (cpr : List (String × String)) (rels : List Dependency)
    (edge : String × String × String) :
    processEdge cpr rels edge = rels ∨
    ∃ scope, processEdge cpr rels edge =
      addDepEntry rels edge.1 { ref := edge.2.1, scope := scope } := by
  by_cases h : (pyUpper edge.2.2 == "CONTAINS" && (dictGet? cpr edge.2.1).isSome
      && (some edge.1 != dictGet? cpr edge.2.1)) = true
  · left
    simp only [processEdge, h, if_true]
  · have hcond : (pyUpper edge.2.2 == "CONTAINS" && (dictGet? cpr edge.2.1).isSome
        && (some edge.1 != dictGet? cpr edge.2.1)) = false := by simpa using h
    right
    by_cases h1 : (pyUpper edge.2.2 == "CONTAINS") = true
    · refine ⟨none, ?_⟩
      simp only [processEdge]
      rw [hcond]
      simp [h1]
    · by_cases h2 : (pyUpper edge.2.2 == "USES" || pyUpper edge.2.2 == "DEPENDS_ON"
          || pyUpper edge.2.2 == "REQUIRES") = true
      · refine ⟨some "runtime", ?_⟩
        simp only [processEdge]
        rw [hcond]
        have h1f : (pyUpper edge.2.2 == "CONTAINS") = false := by simpa using h1
        simp [h1f, h2]
      · refine ⟨some "unknown", ?_⟩
        simp only [processEdge]
        rw [hcond]
        have h1f : (pyUpper edge.2.2 == "CONTAINS") = false := by simpa using h1
        have h2f : (pyUpper edge.2.2 == "USES" || pyUpper edge.2.2 == "DEPENDS_ON"
            || pyUpper edge.2.2 == "REQUIRES") = false := by simpa using h2
        simp [h1f, h2f]

/-- Membership in `addDepEntry`: a record either descends from an existing
record (same ref, entries drawn from it or the new entry) or is the fresh
record for `p` holding only the new entry. -/
theorem addDepEntry_mem (rels : List Dependency) (p : String) (e : DepEntry)
    (d : Dependency) (h : d ∈ addDepEntry rels p e) :
    (∃ d' ∈ rels, d.ref = d'.ref ∧
      ∀ ent ∈ d.dependencies, ent ∈ d'.dependencies ∨ ent = e) ∨
    (d.ref = p ∧ ∀ ent ∈ d.dependencies, ent = e) := by
  unfold addDepEntry at h
  by_cases hany : (rels.any (fun d => d.ref == p)) = true
  · rw [if_pos hany] at h
    obtain ⟨d', hd', heq⟩ := List.mem_map.mp h
    left
    by_cases hr : d'.ref = p
    · refine ⟨d', hd', ?_, ?_⟩
      · rw [← heq]
        simp [hr]
      · intro ent hent
        rw [← heq] at hent
        simp only [hr, beq_self_eq_true, if_true] at hent
        rcases List.mem_append.mp hent with h' | h'
        · exact Or.inl h'
        · exact Or.inr (by simpa using h')
    · have hrf : (d'.ref == p) = false := by simpa using hr
      rw [hrf] at heq
      simp only [Bool.false_eq_true, if_false] at heq
      subst heq
      exact ⟨d', hd', rfl, fun ent hent => Or.inl hent⟩
  · rw [if_neg hany] at h
    rcases List.mem_append.mp h with h' | h'
    · exact Or.inl ⟨d, h', rfl, fun ent hent => Or.inl hent⟩
    · right
      have : d = { ref := p, dependencies := [e] } := by simpa using h'
      subst this
      exact ⟨rfl, fun ent hent => by simpa using hent⟩

/-- Every dependency record built by the edge loop references an edge
source, and every child entry an edge target. -/
theorem dependencies_refs (edges : List (String × String × String))
    (cpr : List (String × String)) :
    ∀ dep ∈ edges.foldl (processEdge cpr) [],
      (∃ e ∈ edges, dep.ref = e.1) ∧
      ∀ ent ∈ dep.dependencies, ∃ e ∈ edges, ent.ref = e.2.1 := by
  apply @foldl_invariant (String × String × String) (List Dependency)
    (fun rels => ∀ dep ∈ rels,
      (∃ e ∈ edges, dep.ref = e.1) ∧
      ∀ ent ∈ dep.dependencies, ∃ e ∈ edges, ent.ref = e.2.1)
    (processEdge cpr) edges []
  · simp
  · intro rels edge hedge hInv dep hdep
    rcases processEdge_cases cpr rels edge with hcase | ⟨scope, hcase⟩
    · rw [hcase] at hdep
      exact hInv dep hdep
    · rw [hcase] at hdep
      rcases addDepEntry_mem rels edge.1 _ dep hdep with
        ⟨d', hd', href, hents⟩ | ⟨href, hents⟩
      · refine ⟨href ▸ (hInv d' hd').1, ?_⟩
        intro ent hent
        rcases hents ent hent with h' | h'
        · exact (hInv d' hd').2 ent h'
        · subst h'
          exact ⟨edge, hedge, rfl⟩
      · refine ⟨⟨edge, hedge, href⟩, ?_⟩
        intro ent hent
        rw [hents ent hent]
        exact ⟨edge, hedge, rfl⟩

/-! ### C3: Contains-edge deduplication -/

/-- C3: a `Contains`-labeled edge is skipped (contributes no dependency
entry) iff the child is recorded in the parent-lookup table with a
different recorded parent; otherwise it adds exactly one unscoped
structural entry from parent to child.  On the claim's scenario — a
software entry with `containerPath = ["parentA/sub/file.txt"]` and an
explicit `Contains` edge from `parentA` — the output has exactly one
containment dependency record (one record for `parentA` with the single
child `F1`), not two. -/
theorem c3_contains_dedup (cpr : List (String × String)) (rels : List Dependency)
    (p c rel : String) (hrel : pyUpper rel = "CONTAINS") :
    (processEdge cpr rels (p, c, rel) = rels ↔
      ∃ q, dictGet? cpr c = some q ∧ q ≠ p) ∧
    ((¬ ∃ q, dictGet? cpr c = some q ∧ q ≠ p) →
      processEdge cpr rels (p, c, rel) =
        addDepEntry rels p { ref := c, scope := none }) ∧
    (write_sbom c3_sbom).1.dependencies =
      [{ ref := "parentA", dependencies := [{ ref := "F1", scope := none }] }] := by
  have hiff := processEdge_skip_iff cpr p c rel
  by_cases hskip : (pyUpper rel == "CONTAINS" && (dictGet? cpr c).isSome
      && (some p != dictGet? cpr c)) = true
  · have hres : processEdge cpr rels (p, c, rel) = rels := by
      simp only [processEdge, hskip, if_true]
    have hex : ∃ q, dictGet? cpr c = some q ∧ q ≠ p := (hiff.mp hskip).2
    exact ⟨⟨fun _ => hex, fun _ => hres⟩, fun hno => absurd hex hno, rfl⟩
  · have hc : (pyUpper rel == "CONTAINS") = true := by
      rw [hrel]; decide
    have hcond : (pyUpper rel == "CONTAINS" && (dictGet? cpr c).isSome
        && (some p != dictGet? cpr c)) = false := by
      simpa using hskip
    have hres : processEdge cpr rels (p, c, rel) =
        addDepEntry rels p { ref := c, scope := none } := by
      simp only [processEdge]
      rw [hcond]
      simp [hc]
    have hnex : ¬ ∃ q, dictGet? cpr c = some q ∧ q ≠ p := fun hex =>
      hskip (hiff.mpr ⟨hrel, hex⟩)
    refine ⟨⟨fun heq => ?_, fun hex => absurd hex hnex⟩, fun _ => hres, rfl⟩
    exact absurd (hres.symm.trans heq) (addDepEntry_ne rels p _)

/-- Witness for C3 at concrete inputs: a `Contains` edge whose child is
recorded with the different parent `parentA` is skipped. -/
theorem c3_contains_dedup_witness :
    processEdge [("F1", "parentA")] [] ("X", "F1", "Contains") = [] :=
  ((c3_contains_dedup [("F1", "parentA")] [] "X" "F1" "Contains" (by decide)).1).mpr
    ⟨"parentA", by decide, by decide⟩

/-! ### C4: container/file partition -/

/-- C4: a software node with at least one `Contains` child is projected
only as container-type components; a node with no `Contains` children is
projected only as file-type components. -/
theorem c4_partition (sbom : SBOM) (sw : Software) :
    (¬ (sbom.get_children sw.UUID "Contains").isEmpty = true →
      ∀ comp ∈ (softwareStep sbom sw).1, comp.type = ComponentType.container) ∧
    ((sbom.get_children sw.UUID "Contains").isEmpty = true →
      ∀ comp ∈ (softwareStep sbom sw).1, comp.type = ComponentType.file) := by
  constructor
  · intro hne comp hmem
    exact (container_comp_fields sw comp
      (softwareStep_container_mem sbom sw comp hne hmem)).1
  · intro hemp comp hmem
    obtain ⟨f, rfl⟩ := softwareStep_file_mem sbom sw comp hemp hmem
    exact (create_file_fields f sw).1

/-- Witness for C4: in `c4_sbom`, node `A` (a `Contains` parent) yields
only container components and node `B` (no children) only file
components. -/
theorem c4_partition_witness :
    (¬ (c4_sbom.get_children c4_parent.UUID "Contains").isEmpty = true ∧
      ∀ comp ∈ (softwareStep c4_sbom c4_parent).1,
        comp.type = ComponentType.container) ∧
    ((c4_sbom.get_children c4_leaf.UUID "Contains").isEmpty = true ∧
      ∀ comp ∈ (softwareStep c4_sbom c4_leaf).1,
        comp.type = ComponentType.file) :=
  ⟨⟨by decide, (c4_partition c4_sbom c4_parent).1 (by decide)⟩,
   ⟨by decide, (c4_partition c4_sbom c4_leaf).2 (by decide)⟩⟩

/-! ### C5: empty-string version/description handling -/

/-- C5, counterexample: a container-type component keeps an empty-string
version and description verbatim — `c5_software` has `version = ""` and
`description = ""` and its projected container component carries exactly
those, not absent values. -/
theorem c5_counterexample :
    (write_sbom c5_sbom).1.components.map
      (fun comp => (comp.type, comp.version, comp.description)) =
      [(ComponentType.container, some "", some "")] := rfl

/-- C5 (amended): the empty-string-to-absent normalization of version and
description happens exactly in file-type components
(`create_cyclonedx_file`); container-type components receive the version
and description verbatim, empty strings included.  No error in either
case. -/
theorem c5_empty_normalization (sw : Software) (f : String) :
    ((create_cyclonedx_file f sw).1.version ≠ some "" ∧
      (create_cyclonedx_file f sw).1.description ≠ some "") ∧
    (∀ comp ∈ (convert_software_to_cyclonedx_container_components sw).2,
      comp.version = sw.version ∧ comp.description = sw.description) := by
  refine ⟨⟨(create_file_fields f sw).2.2.2.2.1, (create_file_fields f sw).2.2.2.2.2⟩, ?_⟩
  intro comp h
  exact ⟨(container_comp_fields sw comp h).2.2.2.1,
    (container_comp_fields sw comp h).2.2.2.2⟩

/-- Witness for C5 at the concrete entry `c5_software`. -/
theorem c5_empty_normalization_witness :
    ((create_cyclonedx_file "f" c5_software).1.version ≠ some "" ∧
      (create_cyclonedx_file "f" c5_software).1.description ≠ some "") ∧
    (∀ comp ∈ (convert_software_to_cyclonedx_container_components c5_software).2,
      comp.version = c5_software.version ∧
      comp.description = c5_software.description) :=
  c5_empty_normalization c5_software "f"

/-! ### C6: one component per list entry -/

/-- C6, counterexample: a leaf software entry with the non-empty
`containerPath = ["lonefile"]` (one distinct container-relative path, one
file-name alias) produces NO output component at all — single-part paths
are skipped and the file-name fallback does not apply. -/
theorem c6_counterexample :
    c6_software.containerPath = ["lonefile"] ∧
    c6_software.fileName = ["alias.txt"] ∧
    (write_sbom c6_sbom).1.components = [] := ⟨rfl, rfl, rfl⟩

/-- C6 (amended): a `Contains`-parent software entry yields exactly one
container component per entry of its `fileName` list (duplicates
included); a non-parent yields exactly one file component per
`containerPath` entry with more than one path part — entries with a
single part yield none — or, when `containerPath` is empty, one per
`fileName` entry.  Duplicate list entries yield duplicate (identical)
components in the writer's output list. -/
theorem c6_per_entry (sw : Software) :
    (convert_software_to_cyclonedx_container_components sw).2.length =
      sw.fileName.length ∧
    (convert_software_to_cyclonedx_file_components sw).1.length =
      (if sw.containerPath.isEmpty then sw.fileName.length
       else (sw.containerPath.filter
         (fun cp => 1 < (purePathParts cp).length)).length) := by
  constructor
  · simp [convert_software_to_cyclonedx_container_components]
  · rw [(convert_files_eq sw).1]
    by_cases hcp : sw.containerPath.isEmpty = true
    · simp [hcp]
    · simp only [hcp, Bool.false_eq_true, if_false]
      induction sw.containerPath with
      | nil => rfl
      | cons cp l ih =>
        rcases hpp : purePathParts cp with _ | ⟨p₀, _ | ⟨p₁, rest⟩⟩ <;>
          simp [pathTriple, hpp, List.filter_cons, ih]

/-- When the key is present, the overwrite map makes it findable with the
new value. -/
theorem find?_overwrite (d : List (String × String)) (k v : String)
    (h : (d.any (fun kv => kv.1 == k)) = true) :
    List.find? (fun kv => kv.1 == k)
      (d.map (fun kv => if kv.1 == k then (k, v) else kv)) = some (k, v) := by
  induction d with
  | nil => simp at h
  | cons kv d ih =>
    by_cases h1 : kv.1 = k
    · simp [h1]
    · have h1f : (kv.1 == k) = false := by simpa using h1
      have h' : (d.any (fun kv => kv.1 == k)) = true := by
        simpa [List.any_cons, h1f] using h
      simp only [List.map_cons, h1f, Bool.false_eq_true, if_false]
      rw [List.find?_cons_of_neg]
      · exact ih h'
      · simp [h1]

/-- When the key is absent, the appended binding is the one found. -/
theorem find?_appended (d : List (String × String)) (k v : String)
    (h : (d.any (fun kv => kv.1 == k)) = false) :
    List.find? (fun kv => kv.1 == k) (d ++ [(k, v)]) = some (k, v) := by
  induction d with
  | nil => simp
  | cons kv d ih =>
    have h1 : (kv.1 == k) = false := by
      by_contra hc
      simp only [List.any_cons, Bool.or_eq_false_iff] at h
      exact hc h.1
    have h' : (d.any (fun kv => kv.1 == k)) = false := by
      simp only [List.any_cons, Bool.or_eq_false_iff] at h
      exact h.2
    rw [List.cons_append, List.find?_cons_of_neg]
    · exact ih h'
    · simp [h1]

/-- Writing a key always makes it readable with the written value. -/
theorem dictGet?_dictSet_same (d : List (String × String)) (k v : String) :
    dictGet? (dictSet d k v) k = some v := by
  unfold dictSet dictGet?
  by_cases h : (d.any (fun kv => kv.1 == k)) = true
  · rw [if_pos h, find?_overwrite d k v h]
    rfl
  · have hf : (d.any (fun kv => kv.1 == k)) = false := by
      cases hb : d.any (fun kv => kv.1 == k)
      · rfl
      · exact absurd hb h
    rw [if_neg h, find?_appended d k v hf]
    rfl

/-- Folding a batch of writes that all target the same key leaves the last
written value in the table, whatever was there before. -/
theorem dictInsertAll_same_key (k : String) (d : List (String × String))
    (vs : List String) (h : vs ≠ []) :
    dictGet? (dictInsertAll d (vs.map (fun v => (k, v)))) k = vs.getLast? := by
  induction vs generalizing d with
  | nil => exact absurd rfl h
  | cons v vs ih =>
    cases vs with
    | nil => simp [dictInsertAll, dictGet?_dictSet_same]
    | cons v' vs' =>
      have hstep : dictInsertAll d (((v :: v' :: vs').map (fun v => (k, v)))) =
          dictInsertAll (dictSet d k v) ((v' :: vs').map (fun v => (k, v))) := rfl
      rw [hstep, ih (dictSet d k v) (by simp), List.getLast?_cons_cons]

/-- Under the file branch, the recorded parent-lookup updates are exactly
the path-derived parents keyed by the software's UUID. -/
theorem softwareStep_updates (sbom : SBOM) (sw : Software)
    (hemp : (sbom.get_children sw.UUID "Contains").isEmpty = true) :
    (softwareStep sbom sw).2.1 = (pathParents sw).map (fun p => (sw.UUID, p)) := by
  simp only [softwareStep, hemp, Bool.not_true, Bool.false_eq_true, if_false]
  rw [(convert_files_eq sw).1]
  by_cases hcp : sw.containerPath.isEmpty = true
  · have hnil : sw.containerPath = [] := by simpa using hcp
    simp only [hcp, if_true]
    simp [pathParents, hnil, fnameTriple, List.filterMap_map, Function.comp]
  · simp only [hcp, Bool.false_eq_true, if_false]
    unfold pathParents
    induction sw.containerPath with
    | nil => rfl
    | cons cp l ih =>
      rcases hpp : purePathParts cp with _ | ⟨p₀, _ | ⟨p₁, rest⟩⟩ <;>
        simp [pathTriple, hpp, ih, (create_file_fields _ sw).2.1]

/-! ### C8: identifier integrity -/

/-- C8: every component's `bom_ref` equals the UUID of the entity it was
derived from (system components from their system, software components —
container or file — from their software), and every dependency reference
in the output is an endpoint of some input edge (record refs are edge
sources, child entry refs are edge targets). -/
theorem c8_identifier_integrity (sbom : SBOM) :
    (∀ s : System, (convert_system_to_cyclonedx_component s).2.bom_ref = s.UUID) ∧
    (∀ sw : Software, ∀ comp ∈ (softwareStep sbom sw).1, comp.bom_ref = sw.UUID) ∧
    (∀ dep ∈ (write_sbom sbom).1.dependencies,
      (∃ e ∈ sbom.edges, dep.ref = e.1) ∧
      ∀ ent ∈ dep.dependencies, ∃ e ∈ sbom.edges, ent.ref = e.2.1) := by
  refine ⟨fun s => rfl, ?_, ?_⟩
  · intro sw comp hmem
    by_cases hemp : (sbom.get_children sw.UUID "Contains").isEmpty = true
    · obtain ⟨f, rfl⟩ := softwareStep_file_mem sbom sw comp hemp hmem
      exact (create_file_fields f sw).2.1
    · exact (container_comp_fields sw comp
        (softwareStep_container_mem sbom sw comp hemp hmem)).2.1
  · rw [write_sbom_eq]
    exact dependencies_refs sbom.edges _

/-- Witness for C8 on the spec's example scenario: the dependency record
produced for the `S1 → F1` `Contains` edge references the edge's source,
and the file component of `F1` carries its UUID. -/
theorem c8_identifier_integrity_witness :
    ({ ref := "S1", dependencies := [{ ref := "F1", scope := none }] } : Dependency) ∈
        (write_sbom c8_sbom).1.dependencies ∧
    (∃ e ∈ c8_sbom.edges,
      ({ ref := "S1",
         dependencies := [{ ref := "F1", scope := none }] } : Dependency).ref = e.1) ∧
    ∀ comp ∈ (softwareStep c8_sbom c8_software).1, comp.bom_ref = c8_software.UUID :=
  ⟨by decide,
   ((c8_identifier_integrity c8_sbom).2.2 _ (by decide)).1,
   (c8_identifier_integrity c8_sbom).2.1 c8_software⟩

/-! ### C7: hash list omission -/

/-- C7: when none of SHA-1, SHA-256, MD5 is set (truthy), the built hash
list is absent (`None`), not empty, and every component produced from the
entry — container or file — carries exactly that; when some are present,
the list holds exactly one entry per present hash. -/
theorem c7_hash_omission (sw : Software) :
    ((truthyStr sw.sha1 = false ∧ truthyStr sw.sha256 = false ∧
        truthyStr sw.md5 = false) → buildHashes sw = none) ∧
    (∀ l, buildHashes sw = some l →
      l.countP (fun h => h.alg == HashAlgorithm.sha_1) =
        (if truthyStr sw.sha1 then 1 else 0) ∧
      l.countP (fun h => h.alg == HashAlgorithm.sha_256) =
        (if truthyStr sw.sha256 then 1 else 0) ∧
      l.countP (fun h => h.alg == HashAlgorithm.md5) =
        (if truthyStr sw.md5 then 1 else 0)) ∧
    (∀ comp ∈ (convert_software_to_cyclonedx_container_components sw).2,
      comp.hashes = buildHashes sw) ∧
    (∀ f, (create_cyclonedx_file f sw).1.hashes = buildHashes sw) := by
  refine ⟨?_, ?_, ?_, ?_⟩
  · rintro ⟨h1, h2, h3⟩
    simp [buildHashes, h1, h2, h3]
  · intro l hl
    cases h1 : truthyStr sw.sha1 <;> cases h2 : truthyStr sw.sha256 <;>
      cases h3 : truthyStr sw.md5 <;>
      simp [buildHashes, h1, h2, h3] at hl <;> simp [← hl, h1, h2, h3]
  · intro comp h
    exact (container_comp_fields sw comp h).2.2.1
  · intro f
    exact (create_file_fields f sw).2.2.2.1

/-- Witness for C7: `c7_software` has no hashes and `buildHashes` is
absent; `c7_software_hashed` has one SHA-256 hash and its list counts one
SHA-256 entry and no others. -/
theorem c7_hash_omission_witness :
    (truthyStr c7_software.sha1 = false ∧ truthyStr c7_software.sha256 = false ∧
      truthyStr c7_software.md5 = false) ∧
    buildHashes c7_software = none ∧
    (buildHashes c7_software_hashed =
      some [{ alg := HashAlgorithm.sha_256, content := "abc123" }] ∧
     [({ alg := HashAlgorithm.sha_256, content := "abc123" } : HashType)].countP
        (fun h => h.alg == HashAlgorithm.sha_1) =
       (if truthyStr c7_software_hashed.sha1 then 1 else 0)) :=
  ⟨⟨rfl, rfl, rfl⟩, (c7_hash_omission c7_software).1 ⟨rfl, rfl, rfl⟩,
   rfl, ((c7_hash_omission c7_software_hashed).2.1 _ rfl).1⟩

/-! ### C9: single-part container paths produce nothing -/

/-- C9: a software node with no `Contains` children whose `containerPath`
is non-empty but holds only paths with at most one part is projected to no
output component at all: the paths are skipped and the `fileName` fallback
does not fire because it requires `containerPath` to be empty. -/
theorem c9_single_segment_skip (sbom : SBOM) (sw : Software)
    (hemp : (sbom.get_children sw.UUID "Contains").isEmpty = true)
    (hcp : ¬ sw.containerPath.isEmpty = true)
    (hsingle : ∀ cp ∈ sw.containerPath, (purePathParts cp).length ≤ 1) :
    (softwareStep sbom sw).1 = [] := by
  have hfiles : (convert_software_to_cyclonedx_file_components sw).1 = [] := by
    rw [(convert_files_eq sw).1]
    have hcpf : sw.containerPath.isEmpty = false := by simpa using hcp
    simp only [hcpf, Bool.false_eq_true, if_false]
    rw [List.filterMap_eq_nil_iff]
    intro cp hmem
    rcases hpp : purePathParts cp with _ | ⟨p₀, _ | ⟨p₁, rest⟩⟩
    · simp [pathTriple, hpp]
    · simp [pathTriple, hpp]
    · exfalso
      have hle := hsingle cp hmem
      rw [hpp] at hle
      simp at hle
  simp only [softwareStep, hemp, Bool.not_true, Bool.false_eq_true, if_false]
  simp [hfiles]

/-- Witness for C9: `c9_software` has two single-part container paths, a
file-name alias, and yields no components. -/
theorem c9_single_segment_skip_witness :
    ((c9_sbom.get_children c9_software.UUID "Contains").isEmpty = true ∧
      ¬ c9_software.containerPath.isEmpty = true ∧
      ∀ cp ∈ c9_software.containerPath, (purePathParts cp).length ≤ 1) ∧
    (softwareStep c9_sbom c9_software).1 = [] :=
  ⟨⟨by decide, by decide, by decide⟩,
   c9_single_segment_skip c9_sbom c9_software (by decide) (by decide) (by decide)⟩

/-! ### C10: the parent-lookup table is keyed by UUID, last path wins -/

/-- C10: the parent-lookup table is keyed by the software's UUID alone —
one update per multi-part path, all under that key — so after recording,
the table holds only the parent derived from the LAST multi-part path
(whatever the table held before), and a `Contains` edge from any other
parent to that software is suppressed. -/
theorem c10_last_path_wins (sbom : SBOM) (sw : Software)
    (d : List (String × String))
    (hemp : (sbom.get_children sw.UUID "Contains").isEmpty = true) :
    (softwareStep sbom sw).2.1 = (pathParents sw).map (fun p => (sw.UUID, p)) ∧
    (pathParents sw ≠ [] →
      dictGet? (dictInsertAll d (softwareStep sbom sw).2.1) sw.UUID =
        (pathParents sw).getLast?) ∧
    (∀ cpr rels p rel q, pyUpper rel = "CONTAINS" →
      dictGet? cpr sw.UUID = some q → q ≠ p →
      processEdge cpr rels (p, sw.UUID, rel) = rels) := by
  have hupd := softwareStep_updates sbom sw hemp
  refine ⟨hupd, ?_, ?_⟩
  · intro hne
    rw [hupd]
    exact dictInsertAll_same_key sw.UUID d (pathParents sw) hne
  · intro cpr rels p rel q hrel hq hne
    have hskip := (processEdge_skip_iff cpr p sw.UUID rel).mpr ⟨hrel, q, hq, hne⟩
    simp only [processEdge, hskip, if_true]

/-- Witness for C10 on `c10_software` (paths `P1/a` then `P2/b`): the
table records `P2` — the last path's parent — under `M`, and the
`Contains` edge from the other path-derived parent `P1` is suppressed. -/
theorem c10_last_path_wins_witness :
    dictGet? (dictInsertAll [] (softwareStep c10_sbom c10_software).2.1)
        c10_software.UUID = (pathParents c10_software).getLast? ∧
    (pathParents c10_software).getLast? = some "P2" ∧
    processEdge [("M", "P2")] [] ("P1", "M", "Contains") = [] :=
  ⟨(c10_last_path_wins c10_sbom c10_software [] (by decide)).2.1 (by decide),
   by decide,
   (c10_last_path_wins c10_sbom c10_software [] (by decide)).2.2
     [("M", "P2")] [] "P1" "Contains" "P2" (by decide) (by decide) (by decide)⟩

end CdxWriter
